import Mathlib

set_option linter.unusedVariables false

/-!
Verification development for the WordPeek hotkey-dictionary application
(`src/wordpeek.py`).  The definitions below are a shallow embedding of the
program's pure core: the dictionary-response formatting and outcome logic of
`lookup_word_api`, the result dispatch of `DictHelperApp._handle_lookup_result`,
the clipboard-capture decision of `DictHelperApp._on_hotkey_press_worker`, and
the live-window registry bookkeeping (`open_windows`, `_remove_window_ref`).
External effects (HTTP, clipboard, Qt widgets) are modelled as explicit input
values; machine behaviour that the program observes (response status, parsed
JSON body, clipboard text, raised exceptions) is passed in as data.
-/

/-- A phonetic object of a dictionary entry: the optional `text` field.
`none` models an absent key (or JSON null, which Python's `p.get` also
treats as missing for the truthiness filter). -/
structure Phonetic where
  text : Option String
deriving DecidableEq

/-- One definition object of a meaning: optional `definition` and `example`
fields; `defn.get("definition","")`/`defn.get("example","")` default them
to the empty string.  (`example` is a Lean keyword, hence the escaped
identifier.) -/
structure Definition where
  definition : Option String
  «example» : Option String
deriving DecidableEq

/-- One meaning object: optional `partOfSpeech` (`meaning.get("partOfSpeech","")`)
and `definitions` (`meaning.get("definitions", [])` defaults to the empty list,
so absence and emptiness coincide and a plain list is a faithful model). -/
structure Meaning where
  partOfSpeech : Option String
  definitions : List Definition
deriving DecidableEq

/-- One dictionary entry of the parsed 200-response body.  `word = none`
models an absent `word` key (the code tests `"word" in entry`).  For
`phonetics` and `meanings` the code's guards (`entry["phonetics"]` truthy,
iteration over `entry["meanings"]`) make an absent key behave exactly like an
empty list, so plain lists model them faithfully. -/
structure Entry where
  word : Option String
  phonetics : List Phonetic
  meanings : List Meaning
deriving DecidableEq

/-- Python's `sep.join(items)`: the items interleaved with the separator. -/
def pyJoin (sep : String) : List String → String
  | [] => ""
  | [s] => s
  | s :: t :: rest => s ++ sep ++ pyJoin sep (t :: rest)

/-- The list comprehension
`[p.get("text","") for p in entry["phonetics"] if p.get("text")]`:
keep exactly the phonetic texts that are present and non-empty. -/
def phoneticTexts (ps : List Phonetic) : List String :=
  ps.filterMap fun p =>
    match p.text with
    | some t => if t = "" then none else some t
    | none => none

/-- The lines the 200-branch appends for one numbered definition:
`f"  {i}. {d}"`, followed by `f"     e.g., {ex}"` when the example is
non-empty. -/
def definitionLines (i : Nat) (d : Definition) : List String :=
  ("  " ++ toString i ++ ". " ++ d.definition.getD "") ::
    (if d.«example».getD "" = "" then []
     else ["     e.g., " ++ d.«example».getD ""])

/-- The lines the 200-branch appends for one meaning:
`f"\nPart of speech: {part}"` followed by the numbered definitions
(`enumerate(..., start=1)`). -/
def meaningLines (m : Meaning) : List String :=
  ("\nPart of speech: " ++ m.partOfSpeech.getD "") ::
    (List.enumFrom 1 m.definitions).flatMap fun p => definitionLines p.1 p.2

/-- The lines the 200-branch appends for one entry: the `Word:` line when the
`word` key is present, the `Pronunciation:` line when the phonetics guard and
the comprehension both produce something, then the meanings. -/
def entryLines (e : Entry) : List String :=
  (match e.word with
   | some w => ["Word: " ++ w]
   | none => []) ++
  (if e.phonetics ≠ [] then
     (if phoneticTexts e.phonetics ≠ [] then
        ["Pronunciation: " ++ pyJoin ", " (phoneticTexts e.phonetics)]
      else [])
   else []) ++
  e.meanings.flatMap meaningLines

/-- `out_lines` accumulated over all entries of the parsed body. -/
def formatLines (data : List Entry) : List String :=
  data.flatMap entryLines

/-- The spec's `LookupOutcome` tags: `Success`, `NotFound`, `Error`. -/
inductive LookupOutcome
  | Success (text : String)
  | NotFound
  | Error (message : String)
deriving DecidableEq

deriving instance DecidableEq for Except

/-- Everything `lookup_word_api` observes about its HTTP interaction:
either `requests.get` raised (`exc`, carrying `str(e)`), or a response
arrived with a status code and a body whose JSON parse either succeeded as a
list of entries or raised (`Except.error`, carrying `str(e)`). -/
inductive HttpResult
  | exc (message : String)
  | response (status : Nat) (body : Except String (List Entry))
deriving DecidableEq

/-- `lookup_word_api(word)` as the code writes it: the word only feeds the
request URL, and the function returns an error string, `None` (not found), or
the formatted report — one plain `Option String`. -/
def lookup_word_api (word : String) (r : HttpResult) : Option String :=
  match r with
  | .exc e => some ("Error contacting dictionary API: " ++ e)
  | .response status body =>
    if status = 200 then
      match body with
      | .ok data =>
        let out_lines := formatLines data
        if out_lines = [] then none else some (pyJoin "\n" out_lines)
      | .error e => some ("Error parsing API response: " ++ e)
    else if status = 404 then none
    else some ("Unexpected API response: " ++ toString status)

/-- The branches of `lookup_word_api` tagged with the spec's outcome
taxonomy: exceptions, parse failures and unexpected statuses are `Error`,
HTTP 404 and an empty report are `NotFound`, a non-empty report is
`Success`.  Identical branch structure to `lookup_word_api`; the
correspondence is proved in `lookup_word_api_eq_render`. -/
def lookupOutcome (word : String) (r : HttpResult) : LookupOutcome :=
  match r with
  | .exc e => .Error ("Error contacting dictionary API: " ++ e)
  | .response status body =>
    if status = 200 then
      match body with
      | .ok data =>
        let out_lines := formatLines data
        if out_lines = [] then .NotFound else .Success (pyJoin "\n" out_lines)
      | .error e => .Error ("Error parsing API response: " ++ e)
    else if status = 404 then .NotFound
    else .Error ("Unexpected API response: " ++ toString status)

/-- How the code encodes each outcome on the wire of `lookup_result`:
`Success`/`Error` as plain strings, `NotFound` as `None`. -/
def renderOutcome : LookupOutcome → Option String
  | .Success t => some t
  | .NotFound => none
  | .Error m => some m

theorem lookup_word_api_eq_render (w : String) (r : HttpResult) :
    lookup_word_api w r = renderOutcome (lookupOutcome w r) := by
  cases r with
  | exc e => rfl
  | response status body =>
    simp only [lookup_word_api, lookupOutcome]
    split
    · cases body with
      | ok data => by_cases h : formatLines data = [] <;> simp [h, renderOutcome]
      | error e => rfl
    · split <;> rfl

/-- Boolean test that `s` starts with the pattern `p`: the meaning of
Python's `str.startswith`, written recursively so it both computes and
admits induction. -/
def listStarts : List Char → List Char → Bool
  | [], _ => true
  | _ :: _, [] => false
  | a :: as, b :: bs => a == b && listStarts as bs

/-- `result.split(":", 1)[1]`: the text after the first colon (defined when a
colon is present, which the caller's startswith guard guarantees). -/
def splitColonTail (s : String) : String :=
  String.mk ((s.data.dropWhile (fun c => c ≠ ':')).drop 1)

/-- The single user-visible effect `_handle_lookup_result` produces:
a modal critical box, a modal information box, or a new `ResultWindow`
(the persistent result surface, which is also appended to `open_windows`). -/
inductive Effect
  | criticalNotice (title message : String)
  | infoNotice (title message : String)
  | openSurface (title text : String)
deriving DecidableEq

/-- `DictHelperApp._handle_lookup_result(selection, result)`:
a string starting with `"__ERROR__:"` → critical box; `None` → "Not found"
information box; any other string → a `ResultWindow` titled
`f"Meaning: {selection}"` showing the string. -/
def handle_lookup_result (selection : String) (result : Option String) : Effect :=
  match result with
  | some r =>
    if listStarts "__ERROR__:".data r.data then
      .criticalNotice "Lookup Error"
        ("Error while looking up \"" ++ selection ++ "\":\n" ++ splitColonTail r)
    else
      .openSurface ("Meaning: " ++ selection) r
  | none => .infoNotice "Not found" ("No such word exists: \"" ++ selection ++ "\"")

/-- Python's `str.strip()`: drop whitespace from both ends. -/
def pyStrip (s : String) : String :=
  String.mk (((s.data.dropWhile Char.isWhitespace).reverse.dropWhile
    Char.isWhitespace).reverse)

/-- What the hotkey worker does after reading the clipboard: either no
selection (information box, pipeline stops) or a `SelectionEvent` carrying
the text it emits on `request_lookup`. -/
inductive CaptureOutcome
  | noSelection
  | selectionEvent (text : String)
deriving DecidableEq

/-- The decision core of `DictHelperApp._on_hotkey_press_worker`: a failed
clipboard read (`clip = none`) is treated as the empty string; an empty or
whitespace-only selection yields no selection; otherwise the stripped text is
emitted. -/
def on_hotkey_press_worker (clip : Option String) : CaptureOutcome :=
  if clip.getD "" = "" ∨ pyStrip (clip.getD "") = "" then .noSelection
  else .selectionEvent (pyStrip (clip.getD ""))

/-- `DictHelperApp._remove_window_ref(w)` on the `open_windows` list:
remove the first occurrence of `w` if present, otherwise do nothing
(windows are modelled by numeric identifiers). -/
def remove_window_ref (open_windows : List Nat) (w : Nat) : List Nat :=
  if w ∈ open_windows then open_windows.erase w else open_windows

theorem remove_window_ref_eq_erase (l : List Nat) (w : Nat) :
    remove_window_ref l w = l.erase w := by
  by_cases h : w ∈ l
  · simp [remove_window_ref, h]
  · simp [remove_window_ref, h, List.erase_of_not_mem h]

theorem listStarts_head_ne (a b : Char) (as bs : List Char) (h : a ≠ b) :
    listStarts (a :: as) (b :: bs) = false := by
  simp [listStarts]
  intro h'
  exact absurd h' h

theorem listStarts_ERROR_cons (c : Char) (cs : List Char) (hc : c ≠ '_') :
    listStarts "__ERROR__:".data (c :: cs) = false := by
  show listStarts ('_' :: "_ERROR__:".data) (c :: cs) = false
  exact listStarts_head_ne _ _ _ _ (fun h => hc h.symm)

/-- Every `Error` message produced by `lookup_word_api` starts with `E` or
`U`, hence never with the `__ERROR__:` tag that `_handle_lookup_result`
tests for. -/
theorem error_message_not_tagged (w : String) (r : HttpResult) (m : String)
    (h : lookupOutcome w r = .Error m) :
    listStarts "__ERROR__:".data m.data = false := by
  cases r with
  | exc e =>
    have hm : "Error contacting dictionary API: " ++ e = m := by
      simpa [lookupOutcome] using h
    have hdata : m.data = 'E' :: ("rror contacting dictionary API: ".data ++ e.data) := by
      rw [← hm, String.data_append]
      rfl
    rw [hdata]
    exact listStarts_ERROR_cons _ _ (by decide)
  | response status body =>
    by_cases h200 : status = 200
    · subst h200
      cases body with
      | ok data =>
        by_cases hl : formatLines data = []
        · simp [lookupOutcome, hl] at h
        · simp [lookupOutcome, hl] at h
      | error e =>
        have hm : "Error parsing API response: " ++ e = m := by
          simpa [lookupOutcome] using h
        have hdata : m.data = 'E' :: ("rror parsing API response: ".data ++ e.data) := by
          rw [← hm, String.data_append]
          rfl
        rw [hdata]
        exact listStarts_ERROR_cons _ _ (by decide)
    · by_cases h404 : status = 404
      · simp [lookupOutcome, h200, h404] at h
      · have hm : "Unexpected API response: " ++ toString status = m := by
          simpa [lookupOutcome, h200, h404] using h
        have hdata : m.data = 'U' :: ("nexpected API response: ".data ++ (toString status).data) := by
          rw [← hm, String.data_append]
          rfl
        rw [hdata]
        exact listStarts_ERROR_cons _ _ (by decide)

/-- C1.  The claim is false on the code: a network failure makes
`lookup_word_api` return the cause as a plain string, which
`_handle_lookup_result` treats like a successful report — it opens a
persistent `ResultWindow` titled `Meaning: run`, not a transient critical
notice. -/
theorem C1_counterexample :
    lookupOutcome "run" (.exc "timed out") =
      .Error "Error contacting dictionary API: timed out" ∧
    handle_lookup_result "run" (lookup_word_api "run" (.exc "timed out")) =
      .openSurface "Meaning: run" "Error contacting dictionary API: timed out" :=
  ⟨by decide, by decide⟩

/-- C1 (amended).  For every lookup whose outcome is an error
(network/timeout exception, unexpected HTTP status, or parse failure), the
human-readable cause is returned as a plain string and the user-visible
effect is a *persistent* `ResultWindow` titled `Meaning: <selection>`
showing the cause — the same surface as a success; the transient critical
notice is reserved for `__ERROR__:`-tagged strings, which no
`lookup_word_api` error message carries. -/
theorem C1_amended (sel w : String) (r : HttpResult) (m : String)
    (h : lookupOutcome w r = .Error m) :
    lookup_word_api w r = some m ∧
    handle_lookup_result sel (lookup_word_api w r) =
      .openSurface ("Meaning: " ++ sel) m := by
  have hr : lookup_word_api w r = some m := by
    rw [lookup_word_api_eq_render, h]
    rfl
  refine ⟨hr, ?_⟩
  rw [hr]
  simp [handle_lookup_result, error_message_not_tagged w r m h]

theorem C1_amended_witness :
    lookup_word_api "run" (.exc "boom") = some "Error contacting dictionary API: boom" ∧
    handle_lookup_result "run" (lookup_word_api "run" (.exc "boom")) =
      .openSurface ("Meaning: " ++ "run") "Error contacting dictionary API: boom" :=
  C1_amended "run" "run" (.exc "boom") "Error contacting dictionary API: boom" (by decide)

/-- C2.  A 200 response with the single entry
`{word:"run", phonetics:[{text:"/rʌn/"}], meanings:[{partOfSpeech:"verb",
definitions:[{definition:"move fast", example:"She ran."}]}]}` formats to
exactly the six lines `Word: run` / `Pronunciation: /rʌn/` / blank /
`Part of speech: verb` / `  1. move fast` / `     e.g., She ran.`
joined by newlines, and the outcome is `Success` of that text. -/
theorem C2_run_formatting :
    lookupOutcome "run" (.response 200 (.ok [⟨some "run", [⟨some "/rʌn/"⟩],
        [⟨some "verb", [⟨some "move fast", some "She ran."⟩]⟩]⟩])) =
      .Success ("Word: run" ++ "\n" ++ "Pronunciation: /rʌn/" ++ "\n" ++ "" ++ "\n" ++
        "Part of speech: verb" ++ "\n" ++ "  1. move fast" ++ "\n" ++
        "     e.g., She ran.") := by decide

/-- C4.  For every non-empty stripped input text and every observable HTTP
interaction — a raised network/timeout exception, any status code, a
malformed body — the lookup is a total function returning exactly one of
`Success`, `NotFound`, `Error`; no case escapes as an exception. -/
theorem C4_lookup_total (t : String) (r : HttpResult)
    (h1 : pyStrip t = t) (h2 : t ≠ "") :
    (∃ s, lookupOutcome t r = .Success s) ∨ lookupOutcome t r = .NotFound ∨
      ∃ m, lookupOutcome t r = .Error m := by
  cases r with
  | exc e => exact Or.inr (Or.inr ⟨_, rfl⟩)
  | response status body =>
    by_cases h200 : status = 200
    · subst h200
      cases body with
      | ok data =>
        by_cases hl : formatLines data = []
        · exact Or.inr (Or.inl (by simp [lookupOutcome, hl]))
        · exact Or.inl ⟨pyJoin "\n" (formatLines data), by simp [lookupOutcome, hl]⟩
      | error e => exact Or.inr (Or.inr ⟨_, rfl⟩)
    · by_cases h404 : status = 404
      · exact Or.inr (Or.inl (by simp [lookupOutcome, h200, h404]))
      · exact Or.inr (Or.inr ⟨"Unexpected API response: " ++ toString status,
          by simp [lookupOutcome, h200, h404]⟩)

theorem C4_lookup_total_witness :
    (∃ s, lookupOutcome "run" (.response 404 (.ok [])) = .Success s) ∨
      lookupOutcome "run" (.response 404 (.ok [])) = .NotFound ∨
      ∃ m, lookupOutcome "run" (.response 404 (.ok [])) = .Error m :=
  C4_lookup_total "run" (.response 404 (.ok [])) (by decide) (by decide)

/-- C5.  HTTP 404 for `"xyzzyqq"` (whatever the body) gives outcome
`NotFound`, and the dispatched effect is the transient information box
reading exactly `No such word exists: "xyzzyqq"` — no persistent surface. -/
theorem C5_notfound_notice (body : Except String (List Entry)) :
    lookupOutcome "xyzzyqq" (.response 404 body) = .NotFound ∧
    handle_lookup_result "xyzzyqq" (lookup_word_api "xyzzyqq" (.response 404 body)) =
      .infoNotice "Not found" "No such word exists: \"xyzzyqq\"" :=
  ⟨rfl, rfl⟩

/-- C6.  The capture step yields `noSelection` exactly when the clipboard
content (a failed read counting as empty) strips to the empty string; any
`SelectionEvent` it produces carries precisely the stripped clipboard text,
which is non-empty; and a failed clipboard read always yields
`noSelection`. -/
theorem C6_capture (clip : Option String) :
    (on_hotkey_press_worker clip = .noSelection ↔ pyStrip (clip.getD "") = "") ∧
    (∀ t, on_hotkey_press_worker clip = .selectionEvent t →
      t = pyStrip (clip.getD "") ∧ t ≠ "") ∧
    on_hotkey_press_worker none = .noSelection := by
  refine ⟨?_, ?_, rfl⟩
  · by_cases h1 : clip.getD "" = ""
    · have h2 : pyStrip ("" : String) = "" := rfl
      simp [on_hotkey_press_worker, h1, h2]
    · by_cases h2 : pyStrip (clip.getD "") = ""
      · simp [on_hotkey_press_worker, h1, h2]
      · simp [on_hotkey_press_worker, h1, h2]
  · intro t ht
    unfold on_hotkey_press_worker at ht
    by_cases h1 : clip.getD "" = ""
    · rw [if_pos (Or.inl h1)] at ht
      exact absurd ht (by simp)
    · by_cases h2 : pyStrip (clip.getD "") = ""
      · rw [if_pos (Or.inr h2)] at ht
        exact absurd ht (by simp)
      · rw [if_neg (by tauto)] at ht
        injection ht with h3
        exact ⟨h3.symm, by rw [← h3]; exact h2⟩

theorem C6_capture_witness :
    "word" = pyStrip ((some "  word  " : Option String).getD "") ∧ "word" ≠ "" :=
  (C6_capture (some "  word  ")).2.1 "word" (by decide)

/-- C8.  The claim quantifies over *every* registry state; on a registry
holding the same window reference twice, removing it twice removes both
occurrences, so the second removal is not a no-op. -/
theorem C8_counterexample :
    remove_window_ref (remove_window_ref [0, 0] 0) 0 ≠ remove_window_ref [0, 0] 0 := by
  decide

/-- C8 (amended).  In *every* registry state the removal operation is total
(the membership guard prevents `ValueError`) and decrements the surface's
occurrence count by exactly one when the surface is present, by zero
otherwise (Nat subtraction: `count - 1`); and on any state holding the
surface at most once — which the appending discipline of
`_handle_lookup_result` maintains — removal is idempotent. -/
theorem C8_remove_idempotent (l : List Nat) (w : Nat) :
    (remove_window_ref l w).count w = l.count w - 1 ∧
    (l.count w ≤ 1 →
      remove_window_ref (remove_window_ref l w) w = remove_window_ref l w) := by
  simp only [remove_window_ref_eq_erase]
  refine ⟨List.count_erase_self w l, fun h => ?_⟩
  have hz : (l.erase w).count w = 0 := by
    rw [List.count_erase_self]
    omega
  exact List.erase_of_not_mem (List.count_eq_zero.mp hz)

theorem C8_remove_idempotent_witness :
    ((remove_window_ref [5, 7] 5).count 5 = [5, 7].count 5 - 1 ∧
     remove_window_ref (remove_window_ref [5, 7] 5) 5 = remove_window_ref [5, 7] 5) :=
  ⟨(C8_remove_idempotent [5, 7] 5).1, (C8_remove_idempotent [5, 7] 5).2 (by decide)⟩

/-- C7.  The claim is false on the code: for a non-200/404 status the
message is `"Unexpected API response: <status>"`, not
`"Unexpected response: <status>"`; at status 500 the two differ. -/
theorem C7_counterexample :
    lookupOutcome "hello" (.response 500 (.ok [])) =
      .Error "Unexpected API response: 500" ∧
    lookupOutcome "hello" (.response 500 (.ok [])) ≠
      .Error "Unexpected response: 500" :=
  ⟨by decide, by decide⟩

/-- C7 (amended).  For every HTTP response whose status is neither 200 nor
404, the outcome is `Error` with message exactly
`"Unexpected API response: <status>"`, `<status>` printed in decimal. -/
theorem C7_unexpected_status (w : String) (status : Nat)
    (body : Except String (List Entry))
    (h200 : status ≠ 200) (h404 : status ≠ 404) :
    lookupOutcome w (.response status body) =
      .Error ("Unexpected API response: " ++ toString status) := by
  cases body with
  | ok data => simp [lookupOutcome, h200, h404]
  | error e => simp [lookupOutcome, h200, h404]

theorem C7_unexpected_status_witness :
    lookupOutcome "hello" (.response 500 (.ok [])) =
      .Error ("Unexpected API response: " ++ toString 500) :=
  C7_unexpected_status "hello" 500 (.ok []) (by decide) (by decide)

/-- The Event Router state the registry claims are about: the
`open_windows` list the code keeps, a ghost set of the surfaces currently
shown and not yet destroyed, and the next fresh window identity. -/
structure AppState where
  open_windows : List Nat
  openSurfaces : Finset Nat
  next_id : Nat
deriving DecidableEq

/-- The two registry-relevant events: a `Success` outcome dispatched (the
`ResultWindow` is shown and appended to `open_windows`, with
`destroyed.connect` wired to removal), and a window's `destroyed` signal
firing (the surface disappears and `_remove_window_ref` runs). -/
inductive AppEvent
  | successResult
  | surfaceDestroyed (w : Nat)
deriving DecidableEq

/-- One step of the registry bookkeeping in `_handle_lookup_result` /
`_remove_window_ref`. -/
def stepApp (s : AppState) : AppEvent → AppState
  | .successResult =>
    { open_windows := s.open_windows ++ [s.next_id]
      openSurfaces := insert s.next_id s.openSurfaces
      next_id := s.next_id + 1 }
  | .surfaceDestroyed w =>
    { open_windows := remove_window_ref s.open_windows w
      openSurfaces := s.openSurfaces.erase w
      next_id := s.next_id }

/-- Startup state: `self.open_windows = []`, nothing shown. -/
def initState : AppState := ⟨[], ∅, 0⟩

/-- The state after a sequence of dispatch/destroy events. -/
def runApp (events : List AppEvent) : AppState :=
  events.foldl stepApp initState

/-- Every currently open surface is reachable from the registry. -/
def Tracked (s : AppState) : Prop :=
  ∀ w ∈ s.openSurfaces, w ∈ s.open_windows

theorem tracked_step (s : AppState) (ev : AppEvent) (h : Tracked s) :
    Tracked (stepApp s ev) := by
  cases ev with
  | successResult =>
    intro w hw
    rcases Finset.mem_insert.mp hw with he | hmem
    · subst he
      exact List.mem_append_right _ (List.mem_singleton.mpr rfl)
    · exact List.mem_append_left _ (h w hmem)
  | surfaceDestroyed w' =>
    intro w hw
    have hne : w ≠ w' := Finset.ne_of_mem_erase hw
    have hmem : w ∈ s.openSurfaces := Finset.mem_of_mem_erase hw
    show w ∈ remove_window_ref s.open_windows w'
    rw [remove_window_ref_eq_erase]
    exact (List.mem_erase_of_ne hne).mpr (h w hmem)

theorem tracked_foldl (events : List AppEvent) :
    ∀ s : AppState, Tracked s → Tracked (events.foldl stepApp s) := by
  induction events with
  | nil => intro s h; exact h
  | cons ev rest ih =>
    intro s h
    exact ih (stepApp s ev) (tracked_step s ev h)

/-- C9.  After any sequence of Success dispatches and window destructions,
every surface that is still open is present in the `open_windows` registry:
no shown surface is ever untracked. -/
theorem C9_registry_tracks_open_surfaces (events : List AppEvent) (w : Nat)
    (h : w ∈ (runApp events).openSurfaces) :
    w ∈ (runApp events).open_windows :=
  tracked_foldl events initState (fun _ hw => absurd hw (Finset.not_mem_empty _)) w h

theorem C9_registry_tracks_open_surfaces_witness :
    0 ∈ (runApp [.successResult]).open_windows :=
  C9_registry_tracks_open_surfaces [.successResult] 0 (by decide)

/-- C10.  On an HTTP 200 response, an entry with at least one meaning always
contributes its `Part of speech:` line (empty label when `partOfSpeech` is
absent, and no definition lines needed), so the report is non-empty and the
outcome is `Success`, never `NotFound`. -/
theorem C10_meaning_line_forces_success (w : String) (data : List Entry)
    (e : Entry) (m : Meaning) (he : e ∈ data) (hm : m ∈ e.meanings) :
    ("\nPart of speech: " ++ m.partOfSpeech.getD "") ∈ formatLines data ∧
    ∃ t, lookupOutcome w (.response 200 (.ok data)) = .Success t := by
  have hml : ("\nPart of speech: " ++ m.partOfSpeech.getD "") ∈ meaningLines m := by
    unfold meaningLines
    exact List.mem_cons_self _ _
  have hline : ("\nPart of speech: " ++ m.partOfSpeech.getD "") ∈ entryLines e := by
    unfold entryLines
    exact List.mem_append_right _ (List.mem_flatMap.mpr ⟨m, hm, hml⟩)
  have hmem : ("\nPart of speech: " ++ m.partOfSpeech.getD "") ∈ formatLines data :=
    List.mem_flatMap.mpr ⟨e, he, hline⟩
  have hne : formatLines data ≠ [] := List.ne_nil_of_mem hmem
  exact ⟨hmem, pyJoin "\n" (formatLines data), by simp [lookupOutcome, hne]⟩

theorem C10_meaning_line_forces_success_witness :
    ("\nPart of speech: " ++ (Option.getD none "")) ∈
      formatLines [⟨none, [], [⟨none, []⟩]⟩] ∧
    ∃ t, lookupOutcome "run" (.response 200 (.ok [⟨none, [], [⟨none, []⟩]⟩])) =
      .Success t :=
  C10_meaning_line_forces_success "run" [⟨none, [], [⟨none, []⟩]⟩]
    ⟨none, [], [⟨none, []⟩]⟩ ⟨none, []⟩ (by decide) (by decide)

/-- Split a character stream at newline characters — the lines of a string,
with Python `str.split("\n")` semantics (the empty stream has one empty
line). -/
def splitLines : List Char → List (List Char)
  | [] => [[]]
  | c :: rest =>
    if c = '\n' then [] :: splitLines rest
    else
      match splitLines rest with
      | [] => [[c]]
      | l :: ls => (c :: l) :: ls

theorem splitLines_ne_nil (cs : List Char) : splitLines cs ≠ [] := by
  induction cs with
  | nil => simp [splitLines]
  | cons c rest ih =>
    by_cases hc : c = '\n'
    · simp [splitLines, hc]
    · simp only [splitLines, if_neg hc]
      cases h : splitLines rest with
      | nil => simp
      | cons l ls => simp

theorem splitLines_cons_newline (cs : List Char) :
    splitLines ('\n' :: cs) = [] :: splitLines cs := by
  simp [splitLines]

theorem splitLines_append_newline (xs ys : List Char) :
    splitLines (xs ++ '\n' :: ys) = splitLines xs ++ splitLines ys := by
  induction xs with
  | nil => simp [splitLines]
  | cons c rest ih =>
    by_cases hc : c = '\n'
    · subst hc
      rw [List.cons_append, splitLines_cons_newline, splitLines_cons_newline, ih]
      rfl
    · rw [List.cons_append]
      simp only [splitLines, if_neg hc]
      rw [ih]
      cases h : splitLines rest with
      | nil => exact absurd h (splitLines_ne_nil rest)
      | cons l ls => simp

theorem splitLines_no_newline (xs : List Char) (h : '\n' ∉ xs) :
    splitLines xs = [xs] := by
  induction xs with
  | nil => rfl
  | cons c rest ih =>
    have hc : c ≠ '\n' := fun he => h (he ▸ List.mem_cons_self c rest)
    have hr : '\n' ∉ rest := fun hm => h (List.mem_cons_of_mem c hm)
    simp only [splitLines, if_neg hc, ih hr]

/-- The lines of a string, as strings. -/
def lineSplit (s : String) : List String :=
  (splitLines s.data).map String.mk

/-- `s` holds no newline character. -/
def cleanStr (s : String) : Prop := '\n' ∉ s.data

instance (s : String) : Decidable (cleanStr s) := by
  unfold cleanStr
  infer_instance

theorem cleanStr_append (s t : String) (hs : cleanStr s) (ht : cleanStr t) :
    cleanStr (s ++ t) := by
  unfold cleanStr at *
  rw [String.data_append]
  intro hm
  rcases List.mem_append.mp hm with h | h
  · exact hs h
  · exact ht h

theorem lineSplit_clean (s : String) (h : cleanStr s) : lineSplit s = [s] := by
  unfold lineSplit
  rw [splitLines_no_newline s.data h]
  rfl

theorem data_pyJoin_cons (a b : String) (t : List String) :
    (pyJoin "\n" (a :: b :: t)).data = a.data ++ '\n' :: (pyJoin "\n" (b :: t)).data := by
  show (a ++ "\n" ++ pyJoin "\n" (b :: t)).data = _
  rw [String.data_append, String.data_append, List.append_assoc]
  rfl

theorem lineSplit_pyJoin (items : List String) (h : items ≠ []) :
    lineSplit (pyJoin "\n" items) = items.flatMap lineSplit := by
  induction items with
  | nil => exact absurd rfl h
  | cons a rest ih =>
    cases rest with
    | nil => simp [pyJoin, lineSplit]
    | cons b t =>
      have step : lineSplit (pyJoin "\n" (a :: b :: t)) =
          lineSplit a ++ lineSplit (pyJoin "\n" (b :: t)) := by
        unfold lineSplit
        rw [data_pyJoin_cons, splitLines_append_newline, List.map_append]
      rw [step, ih (by simp)]
      rfl

theorem digitChar_isDigit (m : Nat) (h : m < 10) : (Nat.digitChar m).isDigit = true := by
  interval_cases m <;> decide

theorem toDigitsCore_all_digits (fuel : Nat) : ∀ (n : Nat) (ds : List Char),
    (∀ c ∈ ds, c.isDigit = true) → ∀ c ∈ Nat.toDigitsCore 10 fuel n ds, c.isDigit = true := by
  induction fuel with
  | zero =>
    intro n ds h
    simpa [Nat.toDigitsCore] using h
  | succ fuel ih =>
    intro n ds h
    simp only [Nat.toDigitsCore]
    have hcons : ∀ c ∈ Nat.digitChar (n % 10) :: ds, c.isDigit = true := by
      intro c hc
      rcases List.mem_cons.mp hc with he | hm
      · subst he
        exact digitChar_isDigit _ (Nat.mod_lt _ (by decide))
      · exact h c hm
    split
    · exact hcons
    · exact ih (n / 10) _ hcons

theorem toDigitsCore_ne_nil (fuel : Nat) : ∀ (n : Nat) (ds : List Char),
    ds ≠ [] → Nat.toDigitsCore 10 fuel n ds ≠ [] := by
  induction fuel with
  | zero =>
    intro n ds h
    simpa [Nat.toDigitsCore] using h
  | succ fuel ih =>
    intro n ds h
    simp only [Nat.toDigitsCore]
    split
    · simp
    · exact ih (n / 10) _ (by simp)

theorem repr_all_digits (n : Nat) : ∀ c ∈ (Nat.repr n).data, c.isDigit = true := by
  have hd : (Nat.repr n).data = Nat.toDigitsCore 10 (n + 1) n [] := rfl
  rw [hd]
  exact toDigitsCore_all_digits (n + 1) n [] (by simp)

theorem repr_data_cons (n : Nat) :
    ∃ c cs, (Nat.repr n).data = c :: cs ∧ c.isDigit = true := by
  have hne : (Nat.repr n).data ≠ [] := by
    have hd : (Nat.repr n).data = Nat.toDigitsCore 10 (n + 1) n [] := rfl
    rw [hd]
    simp only [Nat.toDigitsCore]
    split
    · simp
    · exact toDigitsCore_ne_nil n (n / 10) _ (by simp)
  rcases h : (Nat.repr n).data with _ | ⟨c, cs⟩
  · exact absurd h hne
  · exact ⟨c, cs, rfl, repr_all_digits n c (h ▸ List.mem_cons_self c cs)⟩

theorem isDigit_ne_space (c : Char) (h : c.isDigit = true) : ' ' ≠ c := by
  intro he
  rw [← he] at h
  exact absurd h (by decide)

theorem cleanStr_toString_nat (n : Nat) : cleanStr (toString n) := by
  intro hm
  have := repr_all_digits n '\n' hm
  exact absurd this (by decide)

theorem cleanStr_pyJoin (sep : String) (items : List String)
    (hsep : cleanStr sep) (h : ∀ s ∈ items, cleanStr s) :
    cleanStr (pyJoin sep items) := by
  induction items with
  | nil =>
    show cleanStr ("" : String)
    decide
  | cons a rest ih =>
    cases rest with
    | nil =>
      show cleanStr (pyJoin sep [a])
      exact h a (by simp)
    | cons b t =>
      show cleanStr (a ++ sep ++ pyJoin sep (b :: t))
      exact cleanStr_append _ _
        (cleanStr_append _ _ (h a (by simp)) hsep)
        (ih (fun s hs => h s (List.mem_cons_of_mem a hs)))

/-- `str.startswith` lifted to whole strings. -/
def strStarts (p s : String) : Bool := listStarts p.data s.data

/-- A report line introducing an entry (`Word: ...`). -/
def isWordLine (s : String) : Bool := strStarts "Word: " s

/-- A report line carrying an example (`     e.g., ...`). -/
def isExampleLine (s : String) : Bool := strStarts "     e.g., " s

/-- A numbered definition line: two leading spaces, then a digit (the other
line shapes never match this: word/pronunciation/part-of-speech lines start
with a letter, example lines have a space in third position). -/
def isDefLine (s : String) : Bool :=
  match s.data with
  | c0 :: c1 :: c2 :: _ => c0 == ' ' && c1 == ' ' && c2.isDigit
  | _ => false

theorem listStarts_self_append (l t : List Char) : listStarts l (l ++ t) = true := by
  induction l with
  | nil => rfl
  | cons a as ih => simp [listStarts, ih]

theorem listStarts_cons_same (a : Char) (as bs : List Char) :
    listStarts (a :: as) (a :: bs) = listStarts as bs := by
  simp [listStarts]

theorem strStarts_false_data (p s : String) (c : Char) (cs : List Char)
    (c' : Char) (cs' : List Char)
    (hp : p.data = c :: cs) (hs : s.data = c' :: cs') (h : c ≠ c') :
    strStarts p s = false := by
  unfold strStarts
  rw [hp, hs]
  exact listStarts_head_ne _ _ _ _ h

theorem isDefLine_data (s : String) (c0 c1 c2 : Char) (rest : List Char)
    (h : s.data = c0 :: c1 :: c2 :: rest) :
    isDefLine s = (c0 == ' ' && c1 == ' ' && c2.isDigit) := by
  unfold isDefLine
  rw [h]

theorem data_wordLine (w : String) :
    ("Word: " ++ w).data = 'W' :: 'o' :: 'r' :: ("d: ".data ++ w.data) := by
  rw [String.data_append]
  rfl

theorem data_pronLine (x : String) :
    ("Pronunciation: " ++ x).data = 'P' :: 'r' :: 'o' :: ("nunciation: ".data ++ x.data) := by
  rw [String.data_append]
  rfl

theorem data_posLine (p : String) :
    ("Part of speech: " ++ p).data = 'P' :: 'a' :: 'r' :: ("t of speech: ".data ++ p.data) := by
  rw [String.data_append]
  rfl

theorem data_exLine (x : String) :
    ("     e.g., " ++ x).data = ' ' :: ' ' :: ' ' :: ("  e.g., ".data ++ x.data) := by
  rw [String.data_append]
  rfl

theorem data_defLine (i : Nat) (d : String) (c : Char) (cs : List Char)
    (hc : (Nat.repr i).data = c :: cs) :
    ("  " ++ toString i ++ ". " ++ d).data =
      ' ' :: ' ' :: c :: (cs ++ (". ".data ++ d.data)) := by
  have ht : (toString i).data = c :: cs := hc
  rw [String.data_append, String.data_append, String.data_append, ht]
  simp [List.append_assoc, show "  ".data = [' ', ' '] from rfl]

theorem isWordLine_word (w : String) : isWordLine ("Word: " ++ w) = true := by
  unfold isWordLine strStarts
  rw [String.data_append]
  exact listStarts_self_append _ _

theorem isWordLine_pron (x : String) : isWordLine ("Pronunciation: " ++ x) = false :=
  strStarts_false_data _ _ 'W' "ord: ".data 'P' _ rfl (data_pronLine x) (by decide)

theorem isWordLine_blank : isWordLine "" = false := by decide

theorem isWordLine_pos (p : String) : isWordLine ("Part of speech: " ++ p) = false :=
  strStarts_false_data _ _ 'W' "ord: ".data 'P' _ rfl (data_posLine p) (by decide)

theorem isWordLine_def (i : Nat) (d : String) :
    isWordLine ("  " ++ toString i ++ ". " ++ d) = false := by
  obtain ⟨c, cs, hc, _⟩ := repr_data_cons i
  exact strStarts_false_data _ _ 'W' "ord: ".data ' ' _ rfl (data_defLine i d c cs hc)
    (by decide)

theorem isWordLine_ex (x : String) : isWordLine ("     e.g., " ++ x) = false :=
  strStarts_false_data _ _ 'W' "ord: ".data ' ' _ rfl (data_exLine x) (by decide)

theorem isDefLine_word (w : String) : isDefLine ("Word: " ++ w) = false := by
  rw [isDefLine_data _ _ _ _ _ (data_wordLine w)]
  decide

theorem isDefLine_pron (x : String) : isDefLine ("Pronunciation: " ++ x) = false := by
  rw [isDefLine_data _ _ _ _ _ (data_pronLine x)]
  decide

theorem isDefLine_blank : isDefLine "" = false := by decide

theorem isDefLine_pos (p : String) : isDefLine ("Part of speech: " ++ p) = false := by
  rw [isDefLine_data _ _ _ _ _ (data_posLine p)]
  decide

theorem isDefLine_ex (x : String) : isDefLine ("     e.g., " ++ x) = false := by
  rw [isDefLine_data _ _ _ _ _ (data_exLine x)]
  decide

theorem isDefLine_def (i : Nat) (d : String) :
    isDefLine ("  " ++ toString i ++ ". " ++ d) = true := by
  obtain ⟨c, cs, hc, hdig⟩ := repr_data_cons i
  rw [isDefLine_data _ _ _ _ _ (data_defLine i d c cs hc)]
  simp [hdig]

theorem isExampleLine_word (w : String) : isExampleLine ("Word: " ++ w) = false :=
  strStarts_false_data _ _ ' ' "    e.g., ".data 'W' _ rfl (data_wordLine w) (by decide)

theorem isExampleLine_pron (x : String) : isExampleLine ("Pronunciation: " ++ x) = false :=
  strStarts_false_data _ _ ' ' "    e.g., ".data 'P' _ rfl (data_pronLine x) (by decide)

theorem isExampleLine_blank : isExampleLine "" = false := by decide

theorem isExampleLine_pos (p : String) : isExampleLine ("Part of speech: " ++ p) = false :=
  strStarts_false_data _ _ ' ' "    e.g., ".data 'P' _ rfl (data_posLine p) (by decide)

theorem isExampleLine_def (i : Nat) (d : String) :
    isExampleLine ("  " ++ toString i ++ ". " ++ d) = false := by
  obtain ⟨c, cs, hc, hdig⟩ := repr_data_cons i
  unfold isExampleLine strStarts
  rw [data_defLine i d c cs hc,
    show "     e.g., ".data = ' ' :: ' ' :: ' ' :: "  e.g., ".data from rfl,
    listStarts_cons_same, listStarts_cons_same]
  exact listStarts_head_ne _ _ _ _ (isDigit_ne_space c hdig)

theorem isExampleLine_ex (x : String) : isExampleLine ("     e.g., " ++ x) = true := by
  unfold isExampleLine strStarts
  rw [String.data_append]
  exact listStarts_self_append _ _

/-- The on-screen report lines one meaning contributes: the embedded-newline
item `"\nPart of speech: ..."` splits into a blank line and the
part-of-speech line. -/
def meaningSplitLines (m : Meaning) : List String :=
  "" :: ("Part of speech: " ++ m.partOfSpeech.getD "") ::
    (List.enumFrom 1 m.definitions).flatMap fun p => definitionLines p.1 p.2

/-- The on-screen report lines one entry contributes. -/
def entrySplitLines (e : Entry) : List String :=
  (match e.word with
   | some w => ["Word: " ++ w]
   | none => []) ++
  (if e.phonetics ≠ [] then
     (if phoneticTexts e.phonetics ≠ [] then
        ["Pronunciation: " ++ pyJoin ", " (phoneticTexts e.phonetics)]
      else [])
   else []) ++
  e.meanings.flatMap meaningSplitLines

/-- Field strings of an entry hold no newline (the sense in which a provider
response is synthetic well-formed test data: field values are single-line). -/
def CleanEntry (e : Entry) : Prop :=
  cleanStr (e.word.getD "") ∧
  (∀ p ∈ e.phonetics, cleanStr (p.text.getD "")) ∧
  ∀ m ∈ e.meanings, cleanStr (m.partOfSpeech.getD "") ∧
    ∀ d ∈ m.definitions, cleanStr (d.definition.getD "") ∧ cleanStr (d.«example».getD "")

instance (e : Entry) : Decidable (CleanEntry e) := by
  unfold CleanEntry
  infer_instance

theorem mem_of_mem_enumFrom {α : Type _} (x : α) (i n : Nat) (l : List α)
    (h : (i, x) ∈ List.enumFrom n l) : x ∈ l := by
  induction l generalizing n with
  | nil => simp [List.enumFrom] at h
  | cons a t ih =>
    rcases List.mem_cons.mp h with he | hm
    · injection he with h1 h2
      rw [h2]
      exact List.mem_cons_self a t
    · exact List.mem_cons_of_mem a (ih (n + 1) hm)

theorem flatMap_congr_mem {α β : Type _} (l : List α) (f g : α → List β)
    (h : ∀ a ∈ l, f a = g a) : l.flatMap f = l.flatMap g := by
  induction l with
  | nil => rfl
  | cons a t ih =>
    rw [List.flatMap_cons, List.flatMap_cons, h a (List.mem_cons_self a t),
      ih fun b hb => h b (List.mem_cons_of_mem a hb)]

theorem flatMap_lineSplit_clean (items : List String)
    (h : ∀ s ∈ items, cleanStr s) : items.flatMap lineSplit = items := by
  induction items with
  | nil => rfl
  | cons a t ih =>
    rw [List.flatMap_cons, lineSplit_clean a (h a (List.mem_cons_self a t)),
      ih fun s hs => h s (List.mem_cons_of_mem a hs)]
    rfl

theorem cleanStr_phoneticTexts (ps : List Phonetic)
    (h : ∀ p ∈ ps, cleanStr (p.text.getD "")) :
    ∀ t ∈ phoneticTexts ps, cleanStr t := by
  intro t ht
  rcases List.mem_filterMap.mp ht with ⟨p, hp, hmatch⟩
  rcases hpt : p.text with _ | t'
  · rw [hpt] at hmatch
    simp at hmatch
  · rw [hpt] at hmatch
    by_cases he : t' = ""
    · simp [he] at hmatch
    · simp [he] at hmatch
      have := h p hp
      rw [hpt] at this
      rw [← hmatch]
      exact this

theorem lineSplit_posItem (p : String) (h : cleanStr p) :
    lineSplit ("\nPart of speech: " ++ p) = ["", "Part of speech: " ++ p] := by
  unfold lineSplit
  have hd : ("\nPart of speech: " ++ p).data = '\n' :: ("Part of speech: " ++ p).data := by
    rw [String.data_append, String.data_append]
    rfl
  rw [hd, splitLines_cons_newline,
    splitLines_no_newline _ (cleanStr_append _ _ (by decide) h)]
  rfl

theorem defItems_clean (m : Meaning)
    (hm : ∀ d ∈ m.definitions, cleanStr (d.definition.getD "") ∧ cleanStr (d.«example».getD "")) :
    ∀ s ∈ (List.enumFrom 1 m.definitions).flatMap (fun p => definitionLines p.1 p.2),
      cleanStr s := by
  intro s hs
  rcases List.mem_flatMap.mp hs with ⟨⟨i, d⟩, hpd, hsd⟩
  have hd : d ∈ m.definitions := mem_of_mem_enumFrom d i 1 m.definitions hpd
  rcases List.mem_cons.mp hsd with he | hex
  · rw [he]
    exact cleanStr_append _ _
      (cleanStr_append _ _
        (cleanStr_append _ _ (by decide) (cleanStr_toString_nat i)) (by decide))
      (hm d hd).1
  · split at hex
    · simp at hex
    · have he2 : s = "     e.g., " ++ d.«example».getD "" := by simpa using hex
      rw [he2]
      exact cleanStr_append _ _ (by decide) (hm d hd).2

theorem meaning_lineSplit (m : Meaning)
    (hp : cleanStr (m.partOfSpeech.getD ""))
    (hm : ∀ d ∈ m.definitions, cleanStr (d.definition.getD "") ∧ cleanStr (d.«example».getD "")) :
    (meaningLines m).flatMap lineSplit = meaningSplitLines m := by
  unfold meaningLines meaningSplitLines
  rw [List.flatMap_cons, lineSplit_posItem _ hp,
    flatMap_lineSplit_clean _ (defItems_clean m hm)]
  rfl

theorem entry_lineSplit (e : Entry) (hc : CleanEntry e) :
    (entryLines e).flatMap lineSplit = entrySplitLines e := by
  obtain ⟨hcw, hcp, hcm⟩ := hc
  unfold entryLines entrySplitLines
  rw [List.flatMap_append, List.flatMap_append]
  have hword : (match e.word with
      | some w => ["Word: " ++ w]
      | none => ([] : List String)).flatMap lineSplit =
      (match e.word with
      | some w => ["Word: " ++ w]
      | none => ([] : List String)) := by
    rcases hw : e.word with _ | w
    · rfl
    · have : cleanStr w := by
        have := hcw
        rw [hw] at this
        exact this
      simp only []
      rw [show (["Word: " ++ w] : List String).flatMap lineSplit =
        lineSplit ("Word: " ++ w) ++ [] from rfl,
        lineSplit_clean _ (cleanStr_append _ _ (by decide) this)]
      rfl
  have hpron : (if e.phonetics ≠ [] then
      (if phoneticTexts e.phonetics ≠ [] then
        ["Pronunciation: " ++ pyJoin ", " (phoneticTexts e.phonetics)]
      else [])
     else ([] : List String)).flatMap lineSplit =
      (if e.phonetics ≠ [] then
      (if phoneticTexts e.phonetics ≠ [] then
        ["Pronunciation: " ++ pyJoin ", " (phoneticTexts e.phonetics)]
      else [])
     else ([] : List String)) := by
    split
    · split
      · have hclean : cleanStr ("Pronunciation: " ++ pyJoin ", " (phoneticTexts e.phonetics)) :=
          cleanStr_append _ _ (by decide)
            (cleanStr_pyJoin _ _ (by decide) (cleanStr_phoneticTexts _ hcp))
        rw [show (["Pronunciation: " ++ pyJoin ", " (phoneticTexts e.phonetics)] :
          List String).flatMap lineSplit =
          lineSplit ("Pronunciation: " ++ pyJoin ", " (phoneticTexts e.phonetics)) ++ []
          from rfl, lineSplit_clean _ hclean]
        rfl
      · rfl
    · rfl
  rw [hword, hpron, List.flatMap_assoc]
  have : ∀ m ∈ e.meanings, (meaningLines m).flatMap lineSplit = meaningSplitLines m :=
    fun m hm => meaning_lineSplit m (hcm m hm).1 (hcm m hm).2
  rw [flatMap_congr_mem _ _ _ this]

/-- For a clean body the report's on-screen lines are exactly the
concatenation of each entry's `entrySplitLines`. -/
theorem report_lines (data : List Entry) (hc : ∀ e ∈ data, CleanEntry e)
    (hne : formatLines data ≠ []) :
    lineSplit (pyJoin "\n" (formatLines data)) = data.flatMap entrySplitLines := by
  rw [lineSplit_pyJoin _ hne]
  unfold formatLines
  rw [List.flatMap_assoc]
  exact flatMap_congr_mem _ _ _ (fun e he => entry_lineSplit e (hc e he))

theorem countP_flatMap {α : Type _} (p : String → Bool) (l : List α) (f : α → List String) :
    (l.flatMap f).countP p = (l.map fun a => (f a).countP p).sum := by
  induction l with
  | nil => rfl
  | cons a t ih =>
    rw [List.flatMap_cons, List.countP_append, List.map_cons, List.sum_cons, ih]

theorem sum_map_const {α : Type _} (l : List α) (c : Nat) :
    (l.map fun _ => c).sum = l.length * c := by
  induction l with
  | nil => simp
  | cons a t ih =>
    rw [List.map_cons, List.sum_cons, ih, List.length_cons]
    ring

theorem mem_defItems (m : Meaning) (s : String)
    (hs : s ∈ (List.enumFrom 1 m.definitions).flatMap fun q => definitionLines q.1 q.2) :
    ∃ (i : Nat) (d : Definition),
      s = "  " ++ toString i ++ ". " ++ d.definition.getD "" ∨
      s = "     e.g., " ++ d.«example».getD "" := by
  rcases List.mem_flatMap.mp hs with ⟨⟨i, d⟩, hpd, hsd⟩
  rcases List.mem_cons.mp hsd with he | hex
  · exact ⟨i, d, Or.inl he⟩
  · split at hex
    · simp at hex
    · exact ⟨i, d, Or.inr (by simpa using hex)⟩

theorem countP_word_meaning (m : Meaning) :
    (meaningSplitLines m).countP isWordLine = 0 := by
  apply List.countP_eq_zero.mpr
  intro l hl
  unfold meaningSplitLines at hl
  rcases List.mem_cons.mp hl with h1 | hl2
  · rw [h1]
    simp [isWordLine_blank]
  rcases List.mem_cons.mp hl2 with h2 | hl3
  · rw [h2]
    simp [isWordLine_pos]
  · rcases mem_defItems m l hl3 with ⟨i, d, h | h⟩
    · rw [h]
      simp [isWordLine_def]
    · rw [h]
      simp [isWordLine_ex]

theorem countP_def_meaning (m : Meaning) :
    (meaningSplitLines m).countP isDefLine = m.definitions.length := by
  have hone : ∀ q ∈ List.enumFrom 1 m.definitions,
      (definitionLines q.1 q.2).countP isDefLine = 1 := by
    intro q hq
    obtain ⟨i, d⟩ := q
    unfold definitionLines
    rw [List.countP_cons]
    have h0 : (if d.«example».getD "" = "" then ([] : List String)
        else ["     e.g., " ++ d.«example».getD ""]).countP isDefLine = 0 := by
      split
      · rfl
      · simp [List.countP_cons, isDefLine_ex]
    rw [h0, isDefLine_def]
    rfl
  have hitems : ((List.enumFrom 1 m.definitions).flatMap fun q =>
      definitionLines q.1 q.2).countP isDefLine = m.definitions.length := by
    rw [countP_flatMap, List.map_congr_left hone, sum_map_const,
      List.enumFrom_length, Nat.mul_one]
  unfold meaningSplitLines
  simp [List.countP_cons, isDefLine_blank, isDefLine_pos, hitems]

theorem countP_word_entry (e : Entry) (hw : e.word.isSome = true) :
    (entrySplitLines e).countP isWordLine = 1 := by
  unfold entrySplitLines
  rw [List.countP_append, List.countP_append]
  have hA : (match e.word with
      | some w => ["Word: " ++ w]
      | none => ([] : List String)).countP isWordLine = 1 := by
    cases hwd : e.word with
    | none => rw [hwd] at hw; simp at hw
    | some w => simp [List.countP_cons, isWordLine_word]
  have hB : (if e.phonetics ≠ [] then
      (if phoneticTexts e.phonetics ≠ [] then
        ["Pronunciation: " ++ pyJoin ", " (phoneticTexts e.phonetics)]
      else [])
     else ([] : List String)).countP isWordLine = 0 := by
    split
    · split
      · simp [List.countP_cons, isWordLine_pron]
      · rfl
    · rfl
  have hC : (e.meanings.flatMap meaningSplitLines).countP isWordLine = 0 := by
    rw [countP_flatMap,
      List.map_congr_left (fun m _ => countP_word_meaning m), sum_map_const,
      Nat.mul_zero]
  rw [hA, hB, hC]

theorem countP_def_entry (e : Entry) :
    (entrySplitLines e).countP isDefLine =
      (e.meanings.map fun m => m.definitions.length).sum := by
  unfold entrySplitLines
  rw [List.countP_append, List.countP_append]
  have hA : (match e.word with
      | some w => ["Word: " ++ w]
      | none => ([] : List String)).countP isDefLine = 0 := by
    cases hwd : e.word with
    | none => rfl
    | some w => simp [List.countP_cons, isDefLine_word]
  have hB : (if e.phonetics ≠ [] then
      (if phoneticTexts e.phonetics ≠ [] then
        ["Pronunciation: " ++ pyJoin ", " (phoneticTexts e.phonetics)]
      else [])
     else ([] : List String)).countP isDefLine = 0 := by
    split
    · split
      · simp [List.countP_cons, isDefLine_pron]
      · rfl
    · rfl
  have hC : (e.meanings.flatMap meaningSplitLines).countP isDefLine =
      (e.meanings.map fun m => m.definitions.length).sum := by
    rw [countP_flatMap, List.map_congr_left (fun m _ => countP_def_meaning m)]
  rw [hA, hB, hC]
  omega

/-- Scan the report lines carrying one bit of state — whether the previous
line was a numbered definition line — and check that every example line is
immediately preceded by a definition line. -/
def wpFrom (prevDef : Bool) : List String → Bool
  | [] => true
  | l :: rest => (!(isExampleLine l) || prevDef) && wpFrom (isDefLine l) rest

/-- The scan state after consuming `xs` starting from state `p`. -/
def endDef (p : Bool) : List String → Bool
  | [] => p
  | l :: rest => endDef (isDefLine l) rest

theorem wpFrom_append (p : Bool) (xs ys : List String) :
    wpFrom p (xs ++ ys) = (wpFrom p xs && wpFrom (endDef p xs) ys) := by
  induction xs generalizing p with
  | nil => simp [wpFrom, endDef]
  | cons a as ih =>
    rw [List.cons_append]
    show (_ && wpFrom (isDefLine a) (as ++ ys)) = _
    rw [ih (isDefLine a)]
    simp [wpFrom, endDef, Bool.and_assoc]

/-- Line blocks whose example lines sit right after definition lines no
matter what scan state they are entered in. -/
def GoodLines (xs : List String) : Prop := ∀ p, wpFrom p xs = true

theorem goodLines_nil : GoodLines [] := fun _ => rfl

theorem goodLines_append (xs ys : List String)
    (hx : GoodLines xs) (hy : GoodLines ys) : GoodLines (xs ++ ys) := by
  intro p
  rw [wpFrom_append, hx p, hy (endDef p xs)]
  rfl

theorem goodLines_flatMap {α : Type _} (l : List α) (f : α → List String)
    (h : ∀ a ∈ l, GoodLines (f a)) : GoodLines (l.flatMap f) := by
  induction l with
  | nil => exact goodLines_nil
  | cons a t ih =>
    intro p
    rw [List.flatMap_cons]
    exact goodLines_append _ _ (h a (List.mem_cons_self a t))
      (ih fun b hb => h b (List.mem_cons_of_mem a hb)) p

theorem goodLines_single (s : String) (h : isExampleLine s = false) :
    GoodLines [s] := by
  intro p
  simp [wpFrom, h]

theorem goodLines_defBlock (i : Nat) (d : Definition) :
    GoodLines (definitionLines i d) := by
  intro p
  unfold definitionLines
  by_cases he : d.«example».getD "" = ""
  · simp [he, wpFrom, isExampleLine_def]
  · simp [he, wpFrom, isExampleLine_def, isDefLine_def, isExampleLine_ex]

theorem goodLines_meaning (m : Meaning) : GoodLines (meaningSplitLines m) := by
  have hd : GoodLines ((List.enumFrom 1 m.definitions).flatMap fun q =>
      definitionLines q.1 q.2) :=
    goodLines_flatMap _ _ (fun q _ => goodLines_defBlock q.1 q.2)
  intro p
  unfold meaningSplitLines
  simp [wpFrom, isExampleLine_blank, isExampleLine_pos, isDefLine_blank,
    isDefLine_pos, hd false]

theorem goodLines_entry (e : Entry) : GoodLines (entrySplitLines e) := by
  unfold entrySplitLines
  have hA : GoodLines (match e.word with
      | some w => ["Word: " ++ w]
      | none => ([] : List String)) := by
    cases e.word with
    | none => exact goodLines_nil
    | some w => exact goodLines_single _ (isExampleLine_word w)
  have hB : GoodLines (if e.phonetics ≠ [] then
      (if phoneticTexts e.phonetics ≠ [] then
        ["Pronunciation: " ++ pyJoin ", " (phoneticTexts e.phonetics)]
      else [])
     else ([] : List String)) := by
    split
    · split
      · exact goodLines_single _ (isExampleLine_pron _)
      · exact goodLines_nil
    · exact goodLines_nil
  have hC : GoodLines (e.meanings.flatMap meaningSplitLines) :=
    goodLines_flatMap _ _ (fun m _ => goodLines_meaning m)
  exact goodLines_append _ _ (goodLines_append _ _ hA hB) hC

theorem formatLines_ne_nil_of_word (data : List Entry) (e : Entry)
    (he : e ∈ data) (hw : e.word.isSome = true) : formatLines data ≠ [] := by
  rcases hwd : e.word with _ | w
  · rw [hwd] at hw
    simp at hw
  · have hline : ("Word: " ++ w) ∈ entryLines e := by
      simp [entryLines, hwd]
    exact List.ne_nil_of_mem (List.mem_flatMap.mpr ⟨e, he, hline⟩)

/-- C3.  For a clean synthetic 200-response body with `N` entries, each
carrying a `word` field, `M` meanings and `K` definitions per meaning, the
lookup succeeds and the report's lines are exactly the concatenation of the
per-entry lines (`entrySplitLines`, whose definition places each example
line directly after its numbered definition line); they contain exactly `N`
lines beginning `Word: `, exactly `N*M*K` numbered definition lines (two
spaces then the 1-based index), and every example line is immediately
preceded by a numbered definition line (the `wpFrom` scan). -/
theorem C3_report_shape (w : String) (data : List Entry) (N M K : Nat)
    (hne : data ≠ [])
    (hN : data.length = N)
    (hshape : ∀ e ∈ data, e.word.isSome ∧ CleanEntry e ∧ e.meanings.length = M ∧
      ∀ m ∈ e.meanings, m.definitions.length = K) :
    ∃ r, lookupOutcome w (.response 200 (.ok data)) = .Success r ∧
      lineSplit r = data.flatMap entrySplitLines ∧
      (lineSplit r).countP isWordLine = N ∧
      (lineSplit r).countP isDefLine = N * (M * K) ∧
      wpFrom false (lineSplit r) = true := by
  have hfne : formatLines data ≠ [] := by
    cases data with
    | nil => exact absurd rfl hne
    | cons e0 rest =>
      exact formatLines_ne_nil_of_word _ e0 (List.mem_cons_self e0 rest)
        (hshape e0 (List.mem_cons_self e0 rest)).1
  have hrl : lineSplit (pyJoin "\n" (formatLines data)) = data.flatMap entrySplitLines :=
    report_lines data (fun e he => (hshape e he).2.1) hfne
  refine ⟨pyJoin "\n" (formatLines data), ?_, hrl, ?_, ?_, ?_⟩
  · simp [lookupOutcome, hfne]
  · rw [hrl, countP_flatMap,
      List.map_congr_left (fun e he => countP_word_entry e (hshape e he).1),
      sum_map_const, hN, Nat.mul_one]
  · rw [hrl, countP_flatMap]
    have h2 : ∀ e ∈ data, (entrySplitLines e).countP isDefLine = M * K := by
      intro e he
      rw [countP_def_entry, List.map_congr_left (hshape e he).2.2.2,
        sum_map_const, (hshape e he).2.2.1]
    rw [List.map_congr_left h2, sum_map_const, hN]
  · rw [hrl]
    exact goodLines_flatMap _ _ (fun e _ => goodLines_entry e) false

theorem C3_report_shape_witness :
    ∃ r, lookupOutcome "run" (.response 200
        (.ok [⟨some "go", [], [⟨some "verb", [⟨some "move", some "Go!"⟩]⟩]⟩])) =
      .Success r ∧
      lineSplit r =
        [(⟨some "go", [], [⟨some "verb", [⟨some "move", some "Go!"⟩]⟩]⟩ : Entry)].flatMap
          entrySplitLines ∧
      (lineSplit r).countP isWordLine = 1 ∧
      (lineSplit r).countP isDefLine = 1 * (1 * 1) ∧
      wpFrom false (lineSplit r) = true :=
  C3_report_shape "run" [⟨some "go", [], [⟨some "verb", [⟨some "move", some "Go!"⟩]⟩]⟩]
    1 1 1 (by decide) (by decide) (by decide)

/-- C3, as universally stated, fails when a field string itself embeds a
newline: a single entry (`N = M = K = 1`, `word` present) whose definition
text is `"x\nWord: y"` formats to a report with *two* lines beginning
`Word: `. -/
theorem C3_counterexample :
    lookupOutcome "run" (.response 200
        (.ok [⟨some "run", [], [⟨some "verb", [⟨some "x\nWord: y", none⟩]⟩]⟩])) =
      .Success "Word: run\n\nPart of speech: verb\n  1. x\nWord: y" ∧
    (lineSplit "Word: run\n\nPart of speech: verb\n  1. x\nWord: y").countP
      isWordLine = 2 := by
  exact ⟨by decide, by decide⟩
